import Mathlib

set_option maxHeartbeats 1000000

/-
Verification of `scripts/attack_range_core.py` (Azure Attack Range core).

The Python module is embedded shallowly:

* text files are lists of characters; Python `readlines` (which keeps the
  newline terminators) and the substring operator `in` are modelled by
  executable functions on `List Char`;
* the filesystem, the IP-lookup HTTP call, subprocess invocations and the
  Azure SDK are modelled by explicit environments that can inject every
  failure the code can observe (exceptions become `Except` values);
* each public operation of `AzureAttackRangeCore` becomes a total Lean
  function over those environments, mirroring the Python control flow
  statement by statement.
-/

namespace AttackRange

/-- Does the first list occur as an initial segment of the second
(the prefix test underlying Python substring search). -/
def leadsList : List Char → List Char → Bool
  | [], _ => true
  | _ :: _, [] => false
  | a :: as, b :: bs => a == b && leadsList as bs

/-- Python substring operator `pat in s` on character lists. -/
def hasSub (pat : List Char) : List Char → Bool
  | [] => pat.isEmpty
  | c :: rest => leadsList pat (c :: rest) || hasSub pat rest

/-- Python `file.readlines()`: split after each newline, keeping the
terminator; a final unterminated line is kept as-is. -/
def readlines : List Char → List (List Char)
  | [] => []
  | c :: rest =>
    if c = '\n' then ['\n'] :: readlines rest
    else
      match readlines rest with
      | [] => [[c]]
      | l :: ls => (c :: l) :: ls

/-- Drop a trailing newline from a line, if present (the text of the line). -/
def stripNL (l : List Char) : List Char :=
  if l.getLast? = some '\n' then l.dropLast else l

lemma readlines_cons_nl (rest : List Char) :
    readlines ('\n' :: rest) = ['\n'] :: readlines rest := by
  simp [readlines]

lemma readlines_cons (c : Char) (rest : List Char) (h : c ≠ '\n') :
    readlines (c :: rest) =
      match readlines rest with
      | [] => [[c]]
      | l :: ls => (c :: l) :: ls := by
  simp [readlines, h]

lemma readlines_ne_nil (c : Char) (rest : List Char) :
    readlines (c :: rest) ≠ [] := by
  by_cases h : c = '\n'
  · subst h; simp [readlines]
  · rw [readlines_cons c rest h]
    cases hr : readlines rest with
    | nil => simp
    | cons l ls => simp

lemma readlines_eq_nil (s : List Char) (h : readlines s = []) : s = [] := by
  cases s with
  | nil => rfl
  | cons c rest => exact absurd h (readlines_ne_nil c rest)

lemma readlines_mem_ne_nil (s : List Char) :
    ∀ l ∈ readlines s, l ≠ [] := by
  induction s with
  | nil => intro l hl; simp [readlines] at hl
  | cons c rest ih =>
    intro l hl
    by_cases h : c = '\n'
    · subst h
      rw [readlines_cons_nl] at hl
      rcases List.mem_cons.1 hl with h1 | h1
      · subst h1; simp
      · exact ih l h1
    · rw [readlines_cons c rest h] at hl
      cases hr : readlines rest with
      | nil =>
        rw [hr] at hl
        simp at hl
        subst hl; simp
      | cons m ms =>
        rw [hr] at hl
        simp at hl
        rcases hl with h1 | h1
        · subst h1; simp
        · exact ih l (by rw [hr]; exact List.mem_cons_of_mem _ h1)

lemma join_readlines (s : List Char) : (readlines s).flatten = s := by
  induction s with
  | nil => rfl
  | cons c rest ih =>
    by_cases h : c = '\n'
    · subst h
      rw [readlines_cons_nl]
      simp [ih]
    · rw [readlines_cons c rest h]
      cases hr : readlines rest with
      | nil =>
        have hrest : rest = [] := readlines_eq_nil rest hr
        subst hrest
        simp
      | cons l ls =>
        rw [hr] at ih
        simp only [List.flatten_cons] at ih ⊢
        simp [ih]

lemma readlines_append_cons_nl (b t : List Char) (hb : '\n' ∉ b) :
    readlines (b ++ '\n' :: t) = (b ++ ['\n']) :: readlines t := by
  induction b with
  | nil => simp [readlines]
  | cons c b ih =>
    have hc : c ≠ '\n' := fun h => hb (h ▸ List.mem_cons_self c b)
    have hb' : '\n' ∉ b := fun h => hb (List.mem_cons_of_mem _ h)
    rw [List.cons_append, readlines_cons c _ hc, ih hb']
    simp

lemma readlines_no_nl (s : List Char) (hne : s ≠ []) (h : '\n' ∉ s) :
    readlines s = [s] := by
  induction s with
  | nil => exact absurd rfl hne
  | cons c rest ih =>
    have hc : c ≠ '\n' := fun hcc => h (hcc ▸ List.mem_cons_self c rest)
    have hrest : '\n' ∉ rest := fun hm => h (List.mem_cons_of_mem _ hm)
    rw [readlines_cons c rest hc]
    cases hr : rest with
    | nil => simp [readlines]
    | cons d rest' =>
      have hr' := ih (by simp [hr]) hrest
      rw [hr] at hr'
      rw [hr']

lemma readlines_append_of_last_nl (s t : List Char) (h : s.getLast? = some '\n') :
    readlines (s ++ t) = readlines s ++ readlines t := by
  induction s with
  | nil => simp at h
  | cons c s ih =>
    cases s with
    | nil =>
      have hc : c = '\n' := by simpa using h
      subst hc
      rw [List.cons_append, readlines_cons_nl]
      simp [readlines]
    | cons d s' =>
      have h' : (d :: s').getLast? = some '\n' := by
        rwa [List.getLast?_cons_cons] at h
      by_cases hc : c = '\n'
      · subst hc
        rw [List.cons_append, readlines_cons_nl, readlines_cons_nl, ih h']
        simp
      · rw [List.cons_append, readlines_cons c _ hc, readlines_cons c _ hc, ih h']
        cases hr : readlines (d :: s') with
        | nil => exact absurd hr (readlines_ne_nil d s')
        | cons m ms => simp

/-- A line as produced by `readlines`: nonempty, with a newline at most in
final position. -/
def lineOK (l : List Char) : Prop := l ≠ [] ∧ '\n' ∉ l.dropLast

/-- A newline-terminated line: some newline-free body followed by `'\n'`. -/
def termLine (l : List Char) : Prop := ∃ b, '\n' ∉ b ∧ l = b ++ ['\n']

/-- Well-formed line lists: every line but the last is newline-terminated and
the last is a `lineOK` line.  `readlines` produces exactly such lists. -/
def wfLines : List (List Char) → Prop
  | [] => True
  | [l] => lineOK l
  | l :: l' :: ls => termLine l ∧ wfLines (l' :: ls)

lemma termLine_lineOK {l : List Char} (h : termLine l) : lineOK l := by
  obtain ⟨b, hb, rfl⟩ := h
  refine ⟨by simp, ?_⟩
  simpa [List.dropLast_concat] using hb

lemma lineOK_cons {c : Char} {l : List Char} (hc : c ≠ '\n') (h : lineOK l) :
    lineOK (c :: l) := by
  obtain ⟨hne, hdrop⟩ := h
  refine ⟨by simp, ?_⟩
  cases l with
  | nil => exact absurd rfl hne
  | cons d l' =>
    intro hm
    rw [List.dropLast_cons₂] at hm
    rcases List.mem_cons.1 hm with h1 | h1
    · exact hc h1.symm
    · exact hdrop h1

lemma termLine_cons {c : Char} {l : List Char} (hc : c ≠ '\n') (h : termLine l) :
    termLine (c :: l) := by
  obtain ⟨b, hb, rfl⟩ := h
  refine ⟨c :: b, ?_, by simp⟩
  intro hm
  rcases List.mem_cons.1 hm with h1 | h1
  · exact hc h1.symm
  · exact hb h1

lemma wfLines_cons_of_cons {l m : List Char} {ls : List (List Char)}
    (h : wfLines (l :: m :: ls)) : termLine l ∧ wfLines (m :: ls) := h

lemma wfLines_readlines (s : List Char) : wfLines (readlines s) := by
  induction s with
  | nil => trivial
  | cons c rest ih =>
    by_cases hc : c = '\n'
    · subst hc
      rw [readlines_cons_nl]
      cases hr : readlines rest with
      | nil => exact ⟨by simp, by simp⟩
      | cons m ms =>
        rw [hr] at ih
        exact ⟨⟨[], by simp, rfl⟩, ih⟩
    · rw [readlines_cons c rest hc]
      cases hr : readlines rest with
      | nil => exact ⟨by simp, by simp⟩
      | cons m ms =>
        rw [hr] at ih
        cases ms with
        | nil => exact lineOK_cons hc ih
        | cons m' ms' =>
          obtain ⟨ht, hwf⟩ := ih
          exact ⟨termLine_cons hc ht, hwf⟩

lemma readlines_flatten_of_wf (ls : List (List Char)) (h : wfLines ls) :
    readlines ls.flatten = ls := by
  induction ls with
  | nil => rfl
  | cons l ls ih =>
    cases ls with
    | nil =>
      obtain ⟨hne, hdrop⟩ := h
      simp only [List.flatten_cons, List.flatten_nil, List.append_nil]
      cases hlast : l.getLast? with
      | none => exact absurd (List.getLast?_eq_none_iff.1 hlast) hne
      | some d =>
        by_cases hd : d = '\n'
        · subst hd
          have hform : l = l.dropLast ++ ['\n'] := by
            conv_lhs => rw [← List.dropLast_append_getLast hne]
            rw [List.getLast?_eq_getLast l hne] at hlast
            rw [Option.some_inj.1 hlast]
          rw [hform, readlines_append_cons_nl _ _ hdrop]
          simp [← hform, show readlines [] = [] from rfl]
        · have hnl : '\n' ∉ l := by
            intro hm
            have hform : l = l.dropLast ++ [l.getLast hne] := by
              rw [List.dropLast_append_getLast hne]
            rw [hform] at hm
            rcases List.mem_append.1 hm with h1 | h1
            · exact hdrop h1
            · rw [List.getLast?_eq_getLast l hne] at hlast
              have : d = l.getLast hne := (Option.some_inj.1 hlast).symm
              simp at h1
              exact hd (by rw [this, ← h1])
          exact readlines_no_nl l hne hnl
    | cons m ls' =>
      obtain ⟨⟨b, hb, rfl⟩, hwf⟩ := h
      simp only [List.flatten_cons]
      rw [List.append_assoc, List.singleton_append, readlines_append_cons_nl _ _ hb]
      rw [← List.flatten_cons, ih hwf]

lemma leadsList_append_self (p r : List Char) : leadsList p (p ++ r) = true := by
  induction p with
  | nil => rfl
  | cons a p ih => simp [leadsList, ih]

lemma hasSub_of_leads {p s : List Char} (h : leadsList p s = true) :
    hasSub p s = true := by
  cases s with
  | nil =>
    cases p with
    | nil => rfl
    | cons a p => simp [leadsList] at h
  | cons c rest => simp [hasSub, h]

lemma hasSub_self_append (p r : List Char) : hasSub p (p ++ r) = true :=
  hasSub_of_leads (leadsList_append_self p r)

lemma leadsList_concat_nl (p xs : List Char) (hp : '\n' ∉ p) :
    leadsList p (xs ++ ['\n']) = leadsList p xs := by
  induction p generalizing xs with
  | nil => rfl
  | cons a p ih =>
    have ha : a ≠ '\n' := fun h => hp (h ▸ List.mem_cons_self a p)
    have hp' : '\n' ∉ p := fun h => hp (List.mem_cons_of_mem _ h)
    cases xs with
    | nil => simp [leadsList, ha]
    | cons x xs => simp [leadsList, ih xs hp']

lemma hasSub_concat_nl (p xs : List Char) (hp : '\n' ∉ p) :
    hasSub p (xs ++ ['\n']) = hasSub p xs := by
  induction xs with
  | nil =>
    cases p with
    | nil => rfl
    | cons a p =>
      have ha : a ≠ '\n' := fun h => hp (h ▸ List.mem_cons_self a p)
      simp [hasSub, leadsList, ha]
  | cons x xs ih =>
    rw [List.cons_append]
    simp only [hasSub]
    rw [ih, ← List.cons_append, leadsList_concat_nl _ _ hp]

lemma stripNL_concat_nl (xs : List Char) : stripNL (xs ++ ['\n']) = xs := by
  simp [stripNL, List.getLast?_concat, List.dropLast_concat]

lemma stripNL_decomp (l : List Char) :
    l = stripNL l ∨ l = stripNL l ++ ['\n'] := by
  induction l using List.reverseRecOn with
  | nil => left; rfl
  | append_singleton xs x _ =>
    by_cases hx : x = '\n'
    · subst hx
      right
      rw [stripNL_concat_nl]
    · left
      simp [stripNL, List.getLast?_concat, hx]

lemma hasSub_stripNL (p l : List Char) (hp : '\n' ∉ p) :
    hasSub p l = hasSub p (stripNL l) := by
  rcases stripNL_decomp l with h | h
  · rw [← h]
  · conv_lhs => rw [h]
    rw [hasSub_concat_nl _ _ hp]

lemma stripNL_cons (c : Char) (m : List Char) (hm : m ≠ []) :
    stripNL (c :: m) = c :: stripNL m := by
  cases m with
  | nil => exact absurd rfl hm
  | cons d m' =>
    by_cases h : (d :: m').getLast? = some '\n'
    · rw [stripNL, stripNL, if_pos h, if_pos (by rwa [List.getLast?_cons_cons])]
      rw [List.dropLast_cons₂]
    · rw [stripNL, stripNL, if_neg h, if_neg (by rwa [List.getLast?_cons_cons])]

lemma map_stripNL_snoc_nl (s : List Char) (hne : s ≠ [])
    (hlast : s.getLast? ≠ some '\n') :
    (readlines (s ++ ['\n'])).map stripNL = (readlines s).map stripNL := by
  induction s with
  | nil => exact absurd rfl hne
  | cons c s ih =>
    cases s with
    | nil =>
      have hc : c ≠ '\n' := fun h => hlast (by simp [h])
      rw [List.cons_append, List.nil_append]
      rw [readlines_cons c ['\n'] hc, readlines_cons_nl]
      rw [show readlines ([] : List Char) = [] from rfl]
      rw [readlines_cons c [] hc]
      rw [show readlines ([] : List Char) = [] from rfl]
      simp only [List.map_cons, List.map_nil]
      rw [show (c :: ['\n'] : List Char) = [c] ++ ['\n'] from rfl, stripNL_concat_nl]
      rw [stripNL, if_neg (by simp [hc])]
    | cons d s' =>
      have hlast' : (d :: s').getLast? ≠ some '\n' := by
        rwa [List.getLast?_cons_cons] at hlast
      by_cases hc : c = '\n'
      · subst hc
        rw [List.cons_append, readlines_cons_nl, readlines_cons_nl]
        simp only [List.map_cons]
        rw [ih (by simp) hlast']
      · rw [List.cons_append, readlines_cons c _ hc, readlines_cons c _ hc]
        cases hr1 : readlines ((d :: s') ++ ['\n']) with
        | nil =>
          rw [List.cons_append] at hr1
          exact absurd hr1 (readlines_ne_nil d _)
        | cons m ms =>
          cases hr2 : readlines (d :: s') with
          | nil => exact absurd hr2 (readlines_ne_nil d s')
          | cons n ns =>
            have hih := ih (by simp) hlast'
            rw [hr1, hr2] at hih
            simp only [List.map_cons] at hih ⊢
            have hm : m ≠ [] :=
              readlines_mem_ne_nil _ m (by rw [hr1]; exact List.mem_cons_self m ms)
            have hn : n ≠ [] :=
              readlines_mem_ne_nil _ n (by rw [hr2]; exact List.mem_cons_self n ns)
            rw [stripNL_cons c m hm, stripNL_cons c n hn]
            obtain ⟨hhead, htail⟩ := List.cons.injEq _ _ _ _ ▸ hih
            rw [List.cons.injEq]
            exact ⟨by rw [hhead], htail⟩

lemma map_stripNL_append_nl (content : List Char) :
    ∃ pad, (pad = ([] : List (List Char)) ∨ pad = [([] : List Char)]) ∧
      (readlines (content ++ ['\n'])).map stripNL
        = (readlines content).map stripNL ++ pad := by
  cases hc : content with
  | nil =>
    refine ⟨[[]], Or.inr rfl, ?_⟩
    simp [readlines, stripNL]
  | cons c rest =>
    by_cases hlast : content.getLast? = some '\n'
    · refine ⟨[[]], Or.inr rfl, ?_⟩
      rw [← hc]
      rw [readlines_append_of_last_nl content ['\n'] hlast]
      simp [readlines, stripNL]
    · refine ⟨[], Or.inl rfl, ?_⟩
      rw [← hc]
      rw [map_stripNL_snoc_nl content (by simp [hc]) hlast]
      simp

/-- The tag that `update_ip_config` scans for: `'allowed_ip' in line`. -/
def allowedIpKey : List Char := "allowed_ip".data

/-- Text of the assignment the code writes, without the trailing newline:
`allowed_ip = "<ip>"`. -/
def asgText (ip : List Char) : List Char :=
  "allowed_ip = \"".data ++ ip ++ "\"".data

/-- The full line written for a matching line: `f'allowed_ip = "{current_ip}"\n'`. -/
def asgLine (ip : List Char) : List Char := asgText ip ++ ['\n']

/-- Does a line contain the `allowed_ip` tag (the per-line scan of
`update_ip_config`). -/
def matchesIp (l : List Char) : Bool := hasSub allowedIpKey l

/-- What `update_ip_config` writes back for one line of `terraform.tfvars`:
a matching line is replaced by the fresh assignment, any other line is
written back verbatim. -/
def replLine (ip l : List Char) : List Char :=
  if matchesIp l then asgLine ip else l

/-- The rewrite of `terraform/terraform.tfvars` performed by
`update_ip_config` (source lines 29–46): read all lines, write each line
back with matching lines replaced, and append a fresh assignment preceded
by a blank separator line when no line matched. -/
def updateTfvars (content ip : List Char) : List Char :=
  let lines := readlines content
  let written := (lines.map (replLine ip)).flatten
  if lines.any matchesIp then written else written ++ '\n' :: asgLine ip

/-- The variable block appended to `terraform/variables.tf` when the
variable is missing (source lines 57–62). -/
def variableBlock : List Char :=
  ("\n\nvariable \"allowed_ip\" \x7b\n  description = \"IP address allowed to connect to the Attack Range\"\n  type        = string\n  default     = \"0.0.0.0/0\"\n\x7d\n").data

/-- The rewrite of `terraform/variables.tf` performed by `update_ip_config`
(source lines 52–62): append the declaration block iff the variable name
occurs nowhere in the file. -/
def updateVariablesTf (content : List Char) : List Char :=
  if hasSub allowedIpKey content then content else content ++ variableBlock

lemma nl_not_mem_allowedIpKey : '\n' ∉ allowedIpKey := by decide

lemma asgText_no_nl {ip : List Char} (hip : '\n' ∉ ip) : '\n' ∉ asgText ip := by
  intro h
  rcases List.mem_append.1 h with h1 | h1
  · rcases List.mem_append.1 h1 with h2 | h2
    · exact absurd h2 (by decide)
    · exact hip h2
  · exact absurd h1 (by decide)

lemma termLine_asgLine {ip : List Char} (hip : '\n' ∉ ip) : termLine (asgLine ip) :=
  ⟨asgText ip, asgText_no_nl hip, rfl⟩

lemma matchesIp_asgText (ip : List Char) : matchesIp (asgText ip) = true := by
  have hdecomp : asgText ip
      = "allowed_ip".data ++ (" = \"".data ++ ip ++ "\"".data) := by
    show "allowed_ip = \"".data ++ ip ++ "\"".data = _
    rw [show "allowed_ip = \"".data = "allowed_ip".data ++ " = \"".data from rfl]
    simp [List.append_assoc]
  rw [matchesIp, hdecomp]
  exact hasSub_self_append _ _

lemma matchesIp_asgLine (ip : List Char) : matchesIp (asgLine ip) = true := by
  have hdecomp : asgLine ip
      = "allowed_ip".data ++ (" = \"".data ++ ip ++ "\"".data ++ ['\n']) := by
    show ("allowed_ip = \"".data ++ ip ++ "\"".data) ++ ['\n'] = _
    rw [show "allowed_ip = \"".data = "allowed_ip".data ++ " = \"".data from rfl]
    simp [List.append_assoc]
  rw [matchesIp, hdecomp]
  exact hasSub_self_append _ _

lemma wfLines_map_repl (ip : List Char) (hip : '\n' ∉ ip) :
    ∀ ls, wfLines ls → wfLines (ls.map (replLine ip)) := by
  intro ls
  induction ls with
  | nil => intro _; trivial
  | cons l ls ih =>
    intro h
    cases ls with
    | nil =>
      simp only [List.map_cons, List.map_nil]
      show lineOK (replLine ip l)
      rw [replLine]
      by_cases hm : matchesIp l
      · rw [if_pos hm]; exact termLine_lineOK (termLine_asgLine hip)
      · rw [if_neg hm]; exact h
    | cons m ls' =>
      obtain ⟨ht, hwf⟩ := h
      simp only [List.map_cons] at ih ⊢
      refine ⟨?_, ih hwf⟩
      rw [replLine]
      by_cases hm : matchesIp l
      · rw [if_pos hm]; exact termLine_asgLine hip
      · rw [if_neg hm]; exact ht

lemma map_repl_id (ip : List Char) (ls : List (List Char))
    (h : ∀ l ∈ ls, matchesIp l = false) : ls.map (replLine ip) = ls := by
  induction ls with
  | nil => rfl
  | cons l ls ih =>
    simp only [List.map_cons]
    rw [replLine, if_neg (by rw [h l (List.mem_cons_self l ls)]; simp),
      ih (fun m hm => h m (List.mem_cons_of_mem _ hm))]

lemma filter_map_repl_pos (ip : List Char) (ls : List (List Char)) :
    (ls.map (replLine ip)).filter matchesIp
      = List.replicate (ls.filter matchesIp).length (asgLine ip) := by
  induction ls with
  | nil => rfl
  | cons l ls ih =>
    simp only [List.map_cons, List.filter_cons]
    by_cases hm : matchesIp l
    · rw [replLine, if_pos hm, if_pos hm]
      simp only [matchesIp_asgLine, if_pos]
      rw [List.length_cons, List.replicate_succ, ih]
    · rw [replLine, if_neg hm]
      simp only [hm, if_neg]
      simp only [Bool.false_eq_true, if_false, ih]

lemma filter_map_repl_neg (ip : List Char) (ls : List (List Char)) :
    (ls.map (replLine ip)).filter (fun l => !matchesIp l)
      = ls.filter (fun l => !matchesIp l) := by
  induction ls with
  | nil => rfl
  | cons l ls ih =>
    simp only [List.map_cons, List.filter_cons]
    by_cases hm : matchesIp l
    · rw [replLine, if_pos hm]
      simp [matchesIp_asgLine, hm, ih]
    · rw [replLine, if_neg hm]
      simp only [Bool.not_eq_true'] at hm
      simp [hm, ih]

lemma hasSub_append_right (p s t : List Char) (h : hasSub p t = true) :
    hasSub p (s ++ t) = true := by
  induction s with
  | nil => exact h
  | cons c s ih => simp [hasSub, ih]

lemma readlines_updateTfvars_found (content ip : List Char) (hip : '\n' ∉ ip)
    (hfound : (readlines content).any matchesIp = true) :
    readlines (updateTfvars content ip) = (readlines content).map (replLine ip) := by
  rw [updateTfvars]
  simp only [hfound, if_true]
  exact readlines_flatten_of_wf _ (wfLines_map_repl ip hip _ (wfLines_readlines content))

lemma readlines_asgLine (ip : List Char) (hip : '\n' ∉ ip) :
    readlines (asgLine ip) = [asgLine ip] := by
  rw [asgLine, show asgText ip ++ ['\n'] = asgText ip ++ '\n' :: [] from rfl,
    readlines_append_cons_nl _ _ (asgText_no_nl hip)]
  rfl

lemma updateTfvars_not_found (content ip : List Char)
    (habs : (readlines content).any matchesIp = false) :
    updateTfvars content ip = content ++ '\n' :: asgLine ip := by
  have habs' : ∀ l ∈ readlines content, matchesIp l = false := by
    intro l hl
    rcases Bool.eq_false_or_eq_true (matchesIp l) with h | h
    · exact absurd (List.any_eq_true.2 ⟨l, hl, h⟩) (by rw [habs]; simp)
    · exact h
  rw [updateTfvars]
  simp only [habs, if_false, Bool.false_eq_true]
  rw [map_repl_id ip _ habs', join_readlines]

lemma matchesIp_false_of_any_false {ls : List (List Char)}
    (h : ls.any matchesIp = false) : ∀ l ∈ ls, matchesIp l = false := by
  intro l hl
  rcases Bool.eq_false_or_eq_true (matchesIp l) with h1 | h1
  · exact absurd (List.any_eq_true.2 ⟨l, hl, h1⟩) (by rw [h]; simp)
  · exact h1

/-- Prior `terraform.tfvars` contents with two lines containing `allowed_ip`
(an assignment plus a comment mentioning it). -/
def c1PriorContent : List Char :=
  ("allowed_ip = \"1.2.3.4/32\"\n# allowed_ip set above\n").data

/-- The freshly looked-up value used in the C1 counterexample. -/
def c1NewIp : List Char := ("5.6.7.8/32").data

/-- C1 counterexample: `c1PriorContent` contains an `allowed_ip` line, yet
after `update_ip_config`'s tfvars rewrite the file holds two `allowed_ip`
assignment lines, not exactly one — every matching line is rewritten. -/
theorem updateTfvars_c1_counterexample :
    (readlines c1PriorContent).any matchesIp = true
    ∧ ((readlines (updateTfvars c1PriorContent c1NewIp)).filter matchesIp).length
        = 2 := by
  constructor
  · decide
  · decide

/-- C1 (amended): when the values file has at least one line containing
`allowed_ip`, the rewrite replaces every such line with the new
`allowed_ip = "<ip>/32"` assignment (one output assignment per matching
input line, so exactly one precisely when exactly one line matched), and
every line not containing `allowed_ip` is written back unchanged, in its
original position. -/
theorem updateTfvars_replaces_matching_lines (content ip : List Char)
    (hip : '\n' ∉ ip)
    (hfound : (readlines content).any matchesIp = true) :
    readlines (updateTfvars content ip) = (readlines content).map (replLine ip)
    ∧ (readlines (updateTfvars content ip)).filter matchesIp
        = List.replicate ((readlines content).filter matchesIp).length (asgLine ip)
    ∧ (readlines (updateTfvars content ip)).filter (fun l => !matchesIp l)
        = (readlines content).filter (fun l => !matchesIp l)
    ∧ (((readlines content).filter matchesIp).length = 1 →
        (readlines (updateTfvars content ip)).filter matchesIp = [asgLine ip]) := by
  have h1 := readlines_updateTfvars_found content ip hip hfound
  refine ⟨h1, ?_, ?_, ?_⟩
  · rw [h1, filter_map_repl_pos]
  · rw [h1, filter_map_repl_neg]
  · intro hlen
    rw [h1, filter_map_repl_pos, hlen]
    rfl

/-- Witness for the amended C1 theorem at a one-line concrete file. -/
theorem updateTfvars_replaces_matching_lines_witness :
    ('\n' ∉ ("1.2.3.4/32").data)
    ∧ (readlines ("allowed_ip = \"0.0.0.0/0\"\n").data).any matchesIp = true
    ∧ readlines (updateTfvars ("allowed_ip = \"0.0.0.0/0\"\n").data ("1.2.3.4/32").data)
        = (readlines ("allowed_ip = \"0.0.0.0/0\"\n").data).map
            (replLine ("1.2.3.4/32").data) :=
  ⟨by decide, by decide,
    (updateTfvars_replaces_matching_lines _ _ (by decide) (by decide)).1⟩

/-- C7: when no line of the values file contains `allowed_ip`, the rewrite
appends exactly one `allowed_ip` assignment line at the end (after a blank
separator line), leaving the prior contents verbatim as a prefix; at line
level the prior line texts are preserved in order and the unique
`allowed_ip` line of the result is the new assignment, in final position. -/
theorem updateTfvars_appends_when_absent (content ip : List Char)
    (hip : '\n' ∉ ip)
    (habs : (readlines content).any matchesIp = false) :
    updateTfvars content ip = content ++ '\n' :: asgLine ip
    ∧ (∃ pad, (pad = ([] : List (List Char)) ∨ pad = [([] : List Char)]) ∧
        (readlines (updateTfvars content ip)).map stripNL
          = (readlines content).map stripNL ++ pad ++ [asgText ip])
    ∧ (readlines (updateTfvars content ip)).filter matchesIp = [asgLine ip] := by
  have habs' := matchesIp_false_of_any_false habs
  have e1 := updateTfvars_not_found content ip habs
  have e2 : readlines (updateTfvars content ip)
      = readlines (content ++ ['\n']) ++ [asgLine ip] := by
    rw [e1, show content ++ '\n' :: asgLine ip = (content ++ ['\n']) ++ asgLine ip
      by simp]
    rw [readlines_append_of_last_nl _ _ (List.getLast?_concat content)]
    rw [readlines_asgLine ip hip]
  obtain ⟨pad, hpadshape, hpad⟩ := map_stripNL_append_nl content
  have hnomatch : ∀ l ∈ readlines (content ++ ['\n']), matchesIp l = false := by
    intro l hl
    rw [matchesIp, hasSub_stripNL _ _ nl_not_mem_allowedIpKey]
    have hmem : stripNL l ∈ (readlines (content ++ ['\n'])).map stripNL :=
      List.mem_map_of_mem stripNL hl
    rw [hpad] at hmem
    rcases List.mem_append.1 hmem with h1 | h1
    · obtain ⟨l', hl', hll⟩ := List.mem_map.1 h1
      rw [← hll, ← hasSub_stripNL _ _ nl_not_mem_allowedIpKey]
      exact habs' l' hl'
    · rcases hpadshape with h2 | h2
      · rw [h2] at h1; simp at h1
      · rw [h2] at h1
        simp at h1
        rw [h1]
        decide
  refine ⟨e1, ⟨pad, hpadshape, ?_⟩, ?_⟩
  · rw [e2]
    simp only [List.map_append, List.map_cons, List.map_nil]
    rw [hpad, asgLine, stripNL_concat_nl]
  · rw [e2, List.filter_append]
    rw [List.filter_eq_nil_iff.2 (by
      intro l hl
      rw [hnomatch l hl]
      simp)]
    simp [List.filter, matchesIp_asgLine]

/-- Witness for the C7 theorem at a concrete one-line file. -/
theorem updateTfvars_appends_when_absent_witness :
    ('\n' ∉ ("9.9.9.9/32").data)
    ∧ (readlines ("location = \"eastus\"\n").data).any matchesIp = false
    ∧ updateTfvars ("location = \"eastus\"\n").data ("9.9.9.9/32").data
        = ("location = \"eastus\"\n").data ++ '\n' :: asgLine ("9.9.9.9/32").data :=
  ⟨by decide, by decide,
    (updateTfvars_appends_when_absent _ _ (by decide) (by decide)).1⟩

/-- C6: if `allowed_ip` occurs anywhere in `variables.tf` the sync leaves
the file byte-for-byte unchanged; if it occurs nowhere, the sync appends
exactly the declaration block (description, type, default "0.0.0.0/0") at
the end, editing no existing text, after which the variable is present. -/
theorem updateVariablesTf_cases (content : List Char) :
    (hasSub allowedIpKey content = true → updateVariablesTf content = content)
    ∧ (hasSub allowedIpKey content = false →
        updateVariablesTf content = content ++ variableBlock
        ∧ hasSub allowedIpKey (updateVariablesTf content) = true) := by
  constructor
  · intro h
    rw [updateVariablesTf, if_pos h]
  · intro h
    have e : updateVariablesTf content = content ++ variableBlock := by
      rw [updateVariablesTf, if_neg (by simp [h])]
    refine ⟨e, ?_⟩
    rw [e]
    exact hasSub_append_right _ _ _ (by decide)

/-- Witness for the C6 theorem: one file that already has the variable and
one that lacks it. -/
theorem updateVariablesTf_cases_witness :
    (hasSub allowedIpKey ("variable \"allowed_ip\" \x7b\x7d\n").data = true
      ∧ updateVariablesTf ("variable \"allowed_ip\" \x7b\x7d\n").data
          = ("variable \"allowed_ip\" \x7b\x7d\n").data)
    ∧ (hasSub allowedIpKey ("variable \"region\" \x7b\x7d\n").data = false
      ∧ updateVariablesTf ("variable \"region\" \x7b\x7d\n").data
          = ("variable \"region\" \x7b\x7d\n").data ++ variableBlock) :=
  ⟨⟨by decide, (updateVariablesTf_cases _).1 (by decide)⟩,
   ⟨by decide, ((updateVariablesTf_cases _).2 (by decide)).1⟩⟩

/-- On-disk state seen by `update_ip_config`: the two terraform files, each
`none` when absent (`os.path.exists` is false). -/
structure FS where
  tfvars : Option (List Char)
  variablesTf : Option (List Char)
deriving DecidableEq

/-- Environment for one `update_ip_config` call: the result of the
`api.ipify.org` request (the `ip` field of its JSON body, or a raised
exception) and injectable IO failures for the two file read/write blocks. -/
structure IpEnv where
  ipify : Except String (List Char)
  tfvarsErr : Option String
  variablesErr : Option String

/-- The `print` emitted after the values-file rewrite. -/
def successMsg (currentIp : List Char) : String :=
  "[+] Updated allowed IP to: " ++ String.mk currentIp

/-- The warning printed by the `except` handler of `update_ip_config`. -/
def warnUpdateMsg (e : String) : String :=
  "Warning: Could not update IP configuration: " ++ e

/-- The follow-up line printed by the `except` handler. -/
def continueMsg : String := "Continuing with existing configuration..."

/-- The `terraform.tfvars` block of `update_ip_config` (source lines 26–46):
skipped silently when the file does not exist, otherwise read/rewrite,
either of which may raise. -/
def tfvarsStep (env : IpEnv) (fs : FS) (currentIp : List Char) :
    Except (String × FS × List String) FS :=
  match fs.tfvars with
  | none => .ok fs
  | some content =>
    match env.tfvarsErr with
    | some e => .error (e, fs, [])
    | none => .ok { fs with tfvars := some (updateTfvars content currentIp) }

/-- The `variables.tf` block of `update_ip_config` (source lines 51–62):
skipped silently when the file does not exist, otherwise read/append,
either of which may raise. -/
def varsStep (env : IpEnv) (fs : FS) : Except (String × FS) FS :=
  match fs.variablesTf with
  | none => .ok fs
  | some content =>
    match env.variablesErr with
    | some e => .error (e, fs)
    | none => .ok { fs with variablesTf := some (updateVariablesTf content) }

/-- The body of `update_ip_config`'s `try` block: IP lookup, tfvars rewrite,
success print, variables.tf append.  An error carries the exception text,
the filesystem state reached so far and the log printed so far. -/
def updateIpConfigBody (env : IpEnv) (fs : FS) :
    Except (String × FS × List String) (FS × List String) :=
  match env.ipify with
  | .error e => .error (e, fs, [])
  | .ok ipRaw =>
    let currentIp := ipRaw ++ ("/32").data
    match tfvarsStep env fs currentIp with
    | .error p => .error p
    | .ok fs1 =>
      match varsStep env fs1 with
      | .error (e, fs2) => .error (e, fs2, [successMsg currentIp])
      | .ok fs2 => .ok (fs2, [successMsg currentIp])

/-- `update_ip_config` (source lines 18–66): the body under
`try ... except Exception`, which converts every raised exception into two
printed warning lines and a normal return. -/
def update_ip_config (env : IpEnv) (fs : FS) : Except String (FS × List String) :=
  match updateIpConfigBody env fs with
  | .ok (fs', log) => .ok (fs', log)
  | .error (e, fs', log) => .ok (fs', log ++ [warnUpdateMsg e, continueMsg])

/-- C8: `update_ip_config` never raises to its caller — for every
environment, including every injected failure (IP-lookup error, IO error on
either file), it returns normally, and when the body did raise, the log
ends with the warning for that exception followed by the continuation
notice. -/
theorem update_ip_config_never_raises (env : IpEnv) (fs : FS) :
    (∃ fs' log, update_ip_config env fs = .ok (fs', log))
    ∧ (∀ e fsE logE, updateIpConfigBody env fs = .error (e, fsE, logE) →
        update_ip_config env fs
          = .ok (fsE, logE ++ [warnUpdateMsg e, continueMsg])) := by
  constructor
  · cases hb : updateIpConfigBody env fs with
    | ok r => exact ⟨r.1, r.2, by rw [update_ip_config, hb]⟩
    | error p =>
      exact ⟨p.2.1, p.2.2 ++ [warnUpdateMsg p.1, continueMsg],
        by rw [update_ip_config, hb]⟩
  · intro e fsE logE hb
    rw [update_ip_config, hb]

/-- Witness for C8: a concrete run whose IP lookup raises is caught and
logged. -/
theorem update_ip_config_never_raises_witness :
    update_ip_config ⟨.error "requests.exceptions.ConnectionError", none, none⟩
        ⟨none, none⟩
      = .ok (⟨none, none⟩,
          [] ++ [warnUpdateMsg "requests.exceptions.ConnectionError", continueMsg]) :=
  (update_ip_config_never_raises _ _).2 _ _ _ rfl

/-- C10: when `terraform.tfvars` does not exist, `update_ip_config` does not
create it, prints no warning about it, still prints the success message for
the new IP, and proceeds to the `variables.tf` step (shown here with no IO
failure injected there): the result is a normal return whose values file is
still absent, whose declarations file got the ordinary variables.tf
treatment, and whose log is exactly the success message. -/
theorem update_ip_config_missing_values_file (env : IpEnv) (fs : FS)
    (ipRaw : List Char)
    (hip : env.ipify = .ok ipRaw)
    (htf : fs.tfvars = none)
    (hvarsOk : env.variablesErr = none) :
    update_ip_config env fs
      = .ok ({ tfvars := none,
               variablesTf := Option.map updateVariablesTf fs.variablesTf },
             [successMsg (ipRaw ++ ("/32").data)]) := by
  obtain ⟨tf, vtf⟩ := fs
  simp only at htf
  subst htf
  rw [update_ip_config, updateIpConfigBody, hip]
  cases vtf with
  | none =>
    simp [tfvarsStep, varsStep]
  | some content =>
    simp [tfvarsStep, varsStep, hvarsOk]

/-- Witness for C10 at a concrete environment and filesystem. -/
theorem update_ip_config_missing_values_file_witness :
    update_ip_config ⟨.ok ("203.0.113.7").data, none, none⟩
        ⟨none, some ("variable \"region\" \x7b\x7d\n").data⟩
      = .ok (⟨none, some (updateVariablesTf ("variable \"region\" \x7b\x7d\n").data)⟩,
             [successMsg (("203.0.113.7").data ++ ("/32").data)]) :=
  update_ip_config_missing_values_file _ _ _ rfl rfl rfl

/-- Reference to a network interface attached to a VM (only its Azure
resource id is consumed). -/
structure NicRef where
  id : String
deriving DecidableEq

/-- Reference to a public IP address held by an IP configuration. -/
structure PipRef where
  id : String
deriving DecidableEq

/-- One entry of `nic.ip_configurations`; the code only reads
`public_ip_address`, which may be absent. -/
structure IpConfiguration where
  public_ip_address : Option PipRef
deriving DecidableEq

/-- A network interface as returned by
`network_client.network_interfaces.get`. -/
structure NetworkInterface where
  ip_configurations : List IpConfiguration
deriving DecidableEq

/-- A public IP resource as returned by
`network_client.public_ip_addresses.get`. -/
structure PublicIpAddress where
  ip_address : String
deriving DecidableEq

/-- A virtual machine as yielded by `compute_client.virtual_machines.list`:
its name and `network_profile.network_interfaces`. -/
structure VirtualMachine where
  name : String
  network_interfaces : List NicRef
deriving DecidableEq

/-- One Azure API call made during inventory generation. -/
inductive ApiCall where
  | listVMs (rg : String)
  | getNic (rg nic : String)
  | getPip (rg pip : String)
deriving DecidableEq

/-- The Azure control plane plus the inventory-file write, with every
observable failure injectable (each `Except.error` models a raised SDK or
IO exception). -/
structure Cloud where
  virtual_machines_list : String → Except String (List VirtualMachine)
  network_interfaces_get : String → String → Except String NetworkInterface
  public_ip_addresses_get : String → String → Except String PublicIpAddress
  inventoryWriteErr : Option String

/-- The resolved `attack-range.yml` configuration keys that
`create_ansible_inventory` and `run_defender_onboarding` read via
`config.get`. -/
structure Config where
  admin_username : Option String
  admin_password : Option String
  resource_group : Option String
  defender_onboarding_script : Option String

/-- Python truthiness test `not admin_password` on an optional string. -/
def falsyPassword : Option String → Bool
  | none => true
  | some s => s.isEmpty

/-- The resource-group name used by the controller:
`config.get('resource_group', 'attack-range-rg')`. -/
def rgOf (config : Config) : String :=
  config.resource_group.getD "attack-range-rg"

/-- Split a character list at every occurrence of a separator, keeping
empty parts, as Python `str.split(sep)`. -/
def splitOnChar (sep : Char) : List Char → List (List Char)
  | [] => [[]]
  | c :: rest =>
    if c = sep then [] :: splitOnChar sep rest
    else
      match splitOnChar sep rest with
      | [] => [[c]]
      | p :: ps => (c :: p) :: ps

/-- Python `id.split('/')[-1]`: the last segment of a resource id. -/
def lastSegment (s : String) : String :=
  String.mk ((splitOnChar '/' s.data).getLastD [])

/-- The windows keyword list from
`any(keyword in vm_name_lower for keyword in [...])`. -/
def windowsKeywords : List String := ["dc", "workstation", "win11", "server2025"]

/-- Substring test on strings, as Python `pat in s`. -/
def strHasSub (pat s : String) : Bool := hasSub pat.data s.data

/-- Python `vm_name.lower()`, modelled character-wise. -/
def strLower (s : String) : String := String.mk (s.data.map Char.toLower)

/-- The two inventory groups. -/
inductive OsGroup where
  | windows
  | linux
deriving DecidableEq

/-- The name-based classification of the inventory builder: a windows
keyword match wins, then `kali`, otherwise the VM is dropped. -/
def classifyVM (name : String) : Option OsGroup :=
  let vmNameLower := strLower name
  if windowsKeywords.any (fun k => strHasSub k vmNameLower) then some .windows
  else if strHasSub "kali" vmNameLower then some .linux
  else none

/-- The per-VM body of the inventory loop (source lines 199–219): resolve
NIC then public IP.  `ok none` is a `continue` (missing link), `ok (some
ip)` a resolved address, `error` a raised exception (caught by the per-VM
handler).  The second component lists the API calls made. -/
def processVM (cloud : Cloud) (rg : String) (vm : VirtualMachine) :
    Except String (Option String) × List ApiCall :=
  match vm.network_interfaces with
  | [] => (.ok none, [])
  | nicRef :: _ =>
    let nicName := lastSegment nicRef.id
    match cloud.network_interfaces_get rg nicName with
    | .error e => (.error e, [.getNic rg nicName])
    | .ok nic =>
      match nic.ip_configurations with
      | [] => (.error "IndexError: list index out of range", [.getNic rg nicName])
      | ipc :: _ =>
        match ipc.public_ip_address with
        | none => (.ok none, [.getNic rg nicName])
        | some pipRef =>
          let pipName := lastSegment pipRef.id
          match cloud.public_ip_addresses_get rg pipName with
          | .error e => (.error e, [.getNic rg nicName, .getPip rg pipName])
          | .ok pip => (.ok (some pip.ip_address), [.getNic rg nicName, .getPip rg pipName])

/-- The generated inventory document: the two `hosts` maps (name ↦
`ansible_host`) plus the group-level credentials placed in the windows
`vars`. -/
structure Inventory where
  admin_username : String
  admin_password : String
  windowsHosts : List (String × String)
  linuxHosts : List (String × String)
deriving DecidableEq

/-- One iteration of the `for vm in vms` loop, acting on the accumulated
(windows hosts, linux hosts, api calls): a VM whose processing raised or
hit a missing link is skipped, otherwise it is classified by name. -/
def invStep (cloud : Cloud) (rg : String)
    (acc : List (String × String) × List (String × String) × List ApiCall)
    (vm : VirtualMachine) :
    List (String × String) × List (String × String) × List ApiCall :=
  let pr := processVM cloud rg vm
  let calls := acc.2.2 ++ pr.2
  match pr.1 with
  | .error _ => (acc.1, acc.2.1, calls)
  | .ok none => (acc.1, acc.2.1, calls)
  | .ok (some ip) =>
    match classifyVM vm.name with
    | some OsGroup.windows => (acc.1 ++ [(vm.name, ip)], acc.2.1, calls)
    | some OsGroup.linux => (acc.1, acc.2.1 ++ [(vm.name, ip)], calls)
    | none => (acc.1, acc.2.1, calls)

/-- What one VM contributes to the windows hosts map. -/
def winContrib (cloud : Cloud) (rg : String) (vm : VirtualMachine) :
    Option (String × String) :=
  match (processVM cloud rg vm).1 with
  | .ok (some ip) =>
    match classifyVM vm.name with
    | some OsGroup.windows => some (vm.name, ip)
    | _ => none
  | _ => none

/-- What one VM contributes to the linux hosts map. -/
def linContrib (cloud : Cloud) (rg : String) (vm : VirtualMachine) :
    Option (String × String) :=
  match (processVM cloud rg vm).1 with
  | .ok (some ip) =>
    match classifyVM vm.name with
    | some OsGroup.linux => some (vm.name, ip)
    | _ => none
  | _ => none

/-- The API calls one VM's processing performs. -/
def vmCalls (cloud : Cloud) (rg : String) (vm : VirtualMachine) : List ApiCall :=
  (processVM cloud rg vm).2

/-- `create_ansible_inventory` (source lines 155–251): password guard, VM
enumeration, per-VM resolution/classification, inventory write.  Returns
the boolean result, the written inventory (when any) and the Azure API
calls made. -/
def create_ansible_inventory (config : Config) (cloud : Cloud) :
    Bool × Option Inventory × List ApiCall :=
  let admin_username := config.admin_username.getD "azureuser"
  let rg_name := rgOf config
  if falsyPassword config.admin_password then (false, none, [])
  else
    match cloud.virtual_machines_list rg_name with
    | .error _ => (false, none, [.listVMs rg_name])
    | .ok vms =>
      let acc := vms.foldl (invStep cloud rg_name) ([], [], [])
      match cloud.inventoryWriteErr with
      | some _ => (false, none, .listVMs rg_name :: acc.2.2)
      | none =>
        (true,
         some { admin_username := admin_username,
                admin_password := config.admin_password.getD "",
                windowsHosts := acc.1,
                linuxHosts := acc.2.1 },
         .listVMs rg_name :: acc.2.2)

lemma foldl_invStep (cloud : Cloud) (rg : String) (vms : List VirtualMachine) :
    ∀ w l c, vms.foldl (invStep cloud rg) (w, l, c)
      = (w ++ vms.filterMap (winContrib cloud rg),
         l ++ vms.filterMap (linContrib cloud rg),
         c ++ (vms.map (vmCalls cloud rg)).flatten) := by
  induction vms with
  | nil => intro w l c; simp
  | cons vm vms ih =>
    intro w l c
    rw [List.foldl_cons]
    have hstep : invStep cloud rg (w, l, c) vm
        = (w ++ (winContrib cloud rg vm).toList,
           l ++ (linContrib cloud rg vm).toList,
           c ++ vmCalls cloud rg vm) := by
      rw [invStep, winContrib, linContrib, vmCalls]
      cases hpr : (processVM cloud rg vm).1 with
      | error e => simp
      | ok oip =>
        cases oip with
        | none => simp
        | some ip =>
          cases hcl : classifyVM vm.name with
          | none => simp [hcl]
          | some g => cases g <;> simp [hcl]
    rw [hstep, ih]
    simp only [List.filterMap_cons, List.map_cons, List.flatten_cons]
    cases hw : winContrib cloud rg vm with
    | none =>
      cases hl : linContrib cloud rg vm with
      | none => simp [List.append_assoc]
      | some p => simp [List.append_assoc]
    | some p =>
      have hl : linContrib cloud rg vm = none := by
        rw [winContrib] at hw
        rw [linContrib]
        cases hpr : (processVM cloud rg vm).1 with
        | error e => rfl
        | ok oip =>
          cases oip with
          | none => rfl
          | some ip =>
            rw [hpr] at hw
            cases hcl : classifyVM vm.name with
            | none => simp [hcl]
            | some g =>
              cases g
              · simp [hcl]
              · rw [hcl] at hw; simp at hw
      rw [hl]
      simp [List.append_assoc]

lemma create_ansible_inventory_ok (config : Config) (cloud : Cloud)
    (vms : List VirtualMachine)
    (hpw : falsyPassword config.admin_password = false)
    (hvms : cloud.virtual_machines_list (rgOf config) = .ok vms)
    (hw : cloud.inventoryWriteErr = none) :
    create_ansible_inventory config cloud
      = (true,
         some { admin_username := config.admin_username.getD "azureuser",
                admin_password := config.admin_password.getD "",
                windowsHosts := vms.filterMap (winContrib cloud (rgOf config)),
                linuxHosts := vms.filterMap (linContrib cloud (rgOf config)) },
         .listVMs (rgOf config) :: (vms.map (vmCalls cloud (rgOf config))).flatten) := by
  rw [create_ansible_inventory]
  simp only [hpw, if_false, hvms, hw, Bool.false_eq_true]
  rw [foldl_invStep]
  simp

lemma winContrib_name {cloud : Cloud} {rg : String} {vm : VirtualMachine}
    {p : String × String} (h : winContrib cloud rg vm = some p) :
    p.1 = vm.name := by
  rw [winContrib] at h
  cases hpr : (processVM cloud rg vm).1 with
  | error e => rw [hpr] at h; simp at h
  | ok oip =>
    rw [hpr] at h
    cases oip with
    | none => simp at h
    | some ip =>
      cases hcl : classifyVM vm.name with
      | none => rw [hcl] at h; simp at h
      | some g =>
        rw [hcl] at h
        cases g
        · simp at h; exact (congrArg Prod.fst h).symm
        · simp at h

lemma linContrib_name {cloud : Cloud} {rg : String} {vm : VirtualMachine}
    {p : String × String} (h : linContrib cloud rg vm = some p) :
    p.1 = vm.name := by
  rw [linContrib] at h
  cases hpr : (processVM cloud rg vm).1 with
  | error e => rw [hpr] at h; simp at h
  | ok oip =>
    rw [hpr] at h
    cases oip with
    | none => simp at h
    | some ip =>
      cases hcl : classifyVM vm.name with
      | none => rw [hcl] at h; simp at h
      | some g =>
        rw [hcl] at h
        cases g
        · simp at h
        · simp at h; exact (congrArg Prod.fst h).symm

lemma contrib_none_of_failed {cloud : Cloud} {rg : String} {vm : VirtualMachine}
    (h : (processVM cloud rg vm).1 = .ok none
        ∨ ∃ e, (processVM cloud rg vm).1 = .error e) :
    winContrib cloud rg vm = none ∧ linContrib cloud rg vm = none := by
  rcases h with h | ⟨e, h⟩ <;> rw [winContrib, linContrib, h] <;> exact ⟨rfl, rfl⟩

/-- C4: with the admin password absent from the configuration,
`create_ansible_inventory` fails fast — it returns failure, writes no
inventory, and performs zero cloud API calls, whatever the cloud would
have answered. -/
theorem create_ansible_inventory_missing_password (config : Config)
    (cloud : Cloud) (h : config.admin_password = none) :
    create_ansible_inventory config cloud = (false, none, []) := by
  rw [create_ansible_inventory]
  simp [falsyPassword, h]

/-- A cloud environment that would answer every call, used to witness that
the password guard consults none of it. -/
def idleCloud : Cloud :=
  { virtual_machines_list := fun _ => .ok [],
    network_interfaces_get := fun _ _ => .ok { ip_configurations := [] },
    public_ip_addresses_get := fun _ _ => .ok { ip_address := "198.51.100.1" },
    inventoryWriteErr := none }

/-- Witness for C4 at a concrete configuration with no password. -/
theorem create_ansible_inventory_missing_password_witness :
    create_ansible_inventory ⟨some "azureuser", none, some "attack-range-rg", none⟩
        idleCloud = (false, none, []) :=
  create_ansible_inventory_missing_password _ _ rfl

/-- C2: per-VM failures are isolated.  Under a present password, a
successful enumeration and a successful inventory write, the operation
succeeds and each group is exactly the independent per-VM contribution of
the list; any VM whose processing hit a missing NIC, a missing public IP
or a raised exception is absent from both groups, and the remaining VMs
are unaffected. -/
theorem create_ansible_inventory_skips_failed_vms (config : Config)
    (cloud : Cloud) (vms : List VirtualMachine)
    (hpw : falsyPassword config.admin_password = false)
    (hvms : cloud.virtual_machines_list (rgOf config) = .ok vms)
    (hw : cloud.inventoryWriteErr = none)
    (hnodup : (vms.map VirtualMachine.name).Nodup) :
    ∃ inv calls, create_ansible_inventory config cloud = (true, some inv, calls)
      ∧ inv.windowsHosts = vms.filterMap (winContrib cloud (rgOf config))
      ∧ inv.linuxHosts = vms.filterMap (linContrib cloud (rgOf config))
      ∧ ∀ vm ∈ vms,
          ((processVM cloud (rgOf config) vm).1 = .ok none
            ∨ ∃ e, (processVM cloud (rgOf config) vm).1 = .error e) →
          vm.name ∉ inv.windowsHosts.map Prod.fst
          ∧ vm.name ∉ inv.linuxHosts.map Prod.fst := by
  refine ⟨_, _, create_ansible_inventory_ok config cloud vms hpw hvms hw, rfl, rfl, ?_⟩
  intro vm hvm hfail
  obtain ⟨hwin, hlin⟩ := contrib_none_of_failed hfail
  constructor
  · intro hmem
    obtain ⟨p, hp, hpname⟩ := List.mem_map.1 hmem
    obtain ⟨vm', hvm', hc⟩ := List.mem_filterMap.1 hp
    have : vm' = vm := by
      refine List.inj_on_of_nodup_map hnodup hvm' hvm ?_
      rw [← winContrib_name hc, hpname]
    rw [this] at hc
    rw [hwin] at hc
    exact Option.noConfusion hc
  · intro hmem
    obtain ⟨p, hp, hpname⟩ := List.mem_map.1 hmem
    obtain ⟨vm', hvm', hc⟩ := List.mem_filterMap.1 hp
    have : vm' = vm := by
      refine List.inj_on_of_nodup_map hnodup hvm' hvm ?_
      rw [← linContrib_name hc, hpname]
    rw [this] at hc
    rw [hlin] at hc
    exact Option.noConfusion hc

/-- VM list for the C2 witness: three VMs whose processing fails in the
three possible ways, plus one healthy VM. -/
def faultyVMs : List VirtualMachine :=
  [ { name := "dc-no-nic", network_interfaces := [] },
    { name := "workstation-no-pip", network_interfaces := [⟨"x/nicA"⟩] },
    { name := "win11-err", network_interfaces := [⟨"x/nicB"⟩] },
    { name := "kali-ok", network_interfaces := [⟨"x/nicC"⟩] } ]

/-- Cloud for the C2 witness: `nicA` has no public IP, `nicB` raises,
`nicC` resolves to a public IP. -/
def faultyCloud : Cloud :=
  { virtual_machines_list := fun rg =>
      if rg = "attack-range-rg" then .ok faultyVMs
      else .error "ResourceGroupNotFound",
    network_interfaces_get := fun _ n =>
      if n = "nicA" then .ok { ip_configurations := [{ public_ip_address := none }] }
      else if n = "nicC" then
        .ok { ip_configurations := [{ public_ip_address := some ⟨"x/pipC"⟩ }] }
      else .error "ResourceNotFound",
    public_ip_addresses_get := fun _ n =>
      if n = "pipC" then .ok { ip_address := "203.0.113.9" }
      else .error "ResourceNotFound",
    inventoryWriteErr := none }

/-- Configuration used by the concrete inventory runs. -/
def witnessConfig : Config := ⟨none, some "Passw0rd!", none, none⟩

/-- Witness for C2: on the faulty cloud the run succeeds, the three failing
VMs are absent from both groups, and the healthy `kali-ok` VM still lands
in the linux group. -/
theorem create_ansible_inventory_skips_failed_vms_witness :
    ∃ inv calls,
      create_ansible_inventory witnessConfig faultyCloud = (true, some inv, calls)
      ∧ inv.windowsHosts = faultyVMs.filterMap (winContrib faultyCloud (rgOf witnessConfig))
      ∧ inv.linuxHosts = faultyVMs.filterMap (linContrib faultyCloud (rgOf witnessConfig))
      ∧ ∀ vm ∈ faultyVMs,
          ((processVM faultyCloud (rgOf witnessConfig) vm).1 = .ok none
            ∨ ∃ e, (processVM faultyCloud (rgOf witnessConfig) vm).1 = .error e) →
          vm.name ∉ inv.windowsHosts.map Prod.fst
          ∧ vm.name ∉ inv.linuxHosts.map Prod.fst :=
  create_ansible_inventory_skips_failed_vms witnessConfig faultyCloud faultyVMs
    (by decide) rfl rfl (by decide)

/-- The four VMs of the classification scenario, each with one NIC. -/
def rangeVMs : List VirtualMachine :=
  [ { name := "DC01", network_interfaces := [⟨"x/nic-dc01"⟩] },
    { name := "workstation-1", network_interfaces := [⟨"x/nic-ws1"⟩] },
    { name := "kali-attacker", network_interfaces := [⟨"x/nic-kali"⟩] },
    { name := "random-box", network_interfaces := [⟨"x/nic-rnd"⟩] } ]

/-- Cloud for the classification scenario: every VM's NIC resolves to a
public IP. -/
def rangeCloud : Cloud :=
  { virtual_machines_list := fun rg =>
      if rg = "attack-range-rg" then .ok rangeVMs
      else .error "ResourceGroupNotFound",
    network_interfaces_get := fun _ n =>
      if n = "nic-dc01" then
        .ok { ip_configurations := [{ public_ip_address := some ⟨"x/pip-dc01"⟩ }] }
      else if n = "nic-ws1" then
        .ok { ip_configurations := [{ public_ip_address := some ⟨"x/pip-ws1"⟩ }] }
      else if n = "nic-kali" then
        .ok { ip_configurations := [{ public_ip_address := some ⟨"x/pip-kali"⟩ }] }
      else if n = "nic-rnd" then
        .ok { ip_configurations := [{ public_ip_address := some ⟨"x/pip-rnd"⟩ }] }
      else .error "ResourceNotFound",
    public_ip_addresses_get := fun _ n =>
      if n = "pip-dc01" then .ok { ip_address := "198.51.100.11" }
      else if n = "pip-ws1" then .ok { ip_address := "198.51.100.12" }
      else if n = "pip-kali" then .ok { ip_address := "198.51.100.13" }
      else if n = "pip-rnd" then .ok { ip_address := "198.51.100.14" }
      else .error "ResourceNotFound",
    inventoryWriteErr := none }

/-- C5: with VMs `DC01`, `workstation-1`, `kali-attacker`, `random-box` all
resolving to public IPs, the inventory puts `DC01` and `workstation-1`
under `windows`, `kali-attacker` under `linux`, and omits `random-box`
entirely while the run still succeeds; the name-keyword classifier alone
decides this. -/
theorem create_ansible_inventory_classification :
    create_ansible_inventory witnessConfig rangeCloud
      = (true,
         some { admin_username := "azureuser",
                admin_password := "Passw0rd!",
                windowsHosts := [("DC01", "198.51.100.11"),
                                 ("workstation-1", "198.51.100.12")],
                linuxHosts := [("kali-attacker", "198.51.100.13")] },
         [ApiCall.listVMs "attack-range-rg",
          ApiCall.getNic "attack-range-rg" "nic-dc01",
          ApiCall.getPip "attack-range-rg" "pip-dc01",
          ApiCall.getNic "attack-range-rg" "nic-ws1",
          ApiCall.getPip "attack-range-rg" "pip-ws1",
          ApiCall.getNic "attack-range-rg" "nic-kali",
          ApiCall.getPip "attack-range-rg" "pip-kali",
          ApiCall.getNic "attack-range-rg" "nic-rnd",
          ApiCall.getPip "attack-range-rg" "pip-rnd"])
    ∧ classifyVM "DC01" = some OsGroup.windows
    ∧ classifyVM "workstation-1" = some OsGroup.windows
    ∧ classifyVM "kali-attacker" = some OsGroup.linux
    ∧ classifyVM "random-box" = none := by
  exact ⟨by decide, by decide, by decide, by decide, by decide⟩

lemma winContrib_classify {cloud : Cloud} {rg : String} {vm : VirtualMachine}
    {p : String × String} (h : winContrib cloud rg vm = some p) :
    classifyVM vm.name = some OsGroup.windows := by
  rw [winContrib] at h
  cases hpr : (processVM cloud rg vm).1 with
  | error e => rw [hpr] at h; simp at h
  | ok oip =>
    rw [hpr] at h
    cases oip with
    | none => simp at h
    | some ip =>
      cases hcl : classifyVM vm.name with
      | none => rw [hcl] at h; simp at h
      | some g =>
        cases g
        · rfl
        · rw [hcl] at h; simp at h

lemma linContrib_classify {cloud : Cloud} {rg : String} {vm : VirtualMachine}
    {p : String × String} (h : linContrib cloud rg vm = some p) :
    classifyVM vm.name = some OsGroup.linux := by
  rw [linContrib] at h
  cases hpr : (processVM cloud rg vm).1 with
  | error e => rw [hpr] at h; simp at h
  | ok oip =>
    rw [hpr] at h
    cases oip with
    | none => simp at h
    | some ip =>
      cases hcl : classifyVM vm.name with
      | none => rw [hcl] at h; simp at h
      | some g =>
        cases g
        · rw [hcl] at h; simp at h
        · rfl

/-- C9: the windows keyword check has priority over the `kali` check, so a
name matching both (such as `kali-dc`) goes to the windows group only, and
in any successfully generated inventory no VM name appears in both
groups. -/
theorem inventory_windows_priority_disjoint (config : Config) (cloud : Cloud)
    (vms : List VirtualMachine) (inv : Inventory) (calls : List ApiCall)
    (hpw : falsyPassword config.admin_password = false)
    (hvms : cloud.virtual_machines_list (rgOf config) = .ok vms)
    (hw : cloud.inventoryWriteErr = none)
    (hnodup : (vms.map VirtualMachine.name).Nodup)
    (heq : create_ansible_inventory config cloud = (true, some inv, calls)) :
    classifyVM "kali-dc" = some OsGroup.windows
    ∧ (∀ name : String,
        windowsKeywords.any (fun k => strHasSub k (strLower name)) = true →
        classifyVM name = some OsGroup.windows)
    ∧ ∀ n, n ∈ inv.windowsHosts.map Prod.fst → n ∉ inv.linuxHosts.map Prod.fst := by
  have hchar := create_ansible_inventory_ok config cloud vms hpw hvms hw
  rw [heq] at hchar
  have hinv : inv
      = { admin_username := config.admin_username.getD "azureuser",
          admin_password := config.admin_password.getD "",
          windowsHosts := vms.filterMap (winContrib cloud (rgOf config)),
          linuxHosts := vms.filterMap (linContrib cloud (rgOf config)) } := by
    have h2 := congrArg (fun t => t.2.1) hchar
    simpa using h2
  refine ⟨by decide, ?_, ?_⟩
  · intro name h
    simp [classifyVM, h]
  · intro n hwmem hlmem
    rw [hinv] at hwmem hlmem
    simp only at hwmem hlmem
    obtain ⟨p, hp, hpname⟩ := List.mem_map.1 hwmem
    obtain ⟨vmw, hvmw, hcw⟩ := List.mem_filterMap.1 hp
    obtain ⟨q, hq, hqname⟩ := List.mem_map.1 hlmem
    obtain ⟨vml, hvml, hcl⟩ := List.mem_filterMap.1 hq
    have hsame : vmw = vml := by
      refine List.inj_on_of_nodup_map hnodup hvmw hvml ?_
      rw [← winContrib_name hcw, ← linContrib_name hcl, hpname, hqname]
    rw [hsame] at hcw
    have h1 := winContrib_classify hcw
    have h2 := linContrib_classify hcl
    rw [h1] at h2
    exact OsGroup.noConfusion (Option.some.inj h2)

/-- Witness for C9: the classification facts plus disjointness of the two
concrete groups generated on `rangeCloud`. -/
theorem inventory_windows_priority_disjoint_witness :
    classifyVM "kali-dc" = some OsGroup.windows
    ∧ (∀ name : String,
        windowsKeywords.any (fun k => strHasSub k (strLower name)) = true →
        classifyVM name = some OsGroup.windows)
    ∧ ∀ n, n ∈ (Inventory.windowsHosts
          { admin_username := "azureuser",
            admin_password := "Passw0rd!",
            windowsHosts := [("DC01", "198.51.100.11"),
                             ("workstation-1", "198.51.100.12")],
            linuxHosts := [("kali-attacker", "198.51.100.13")] }).map Prod.fst →
        n ∉ (Inventory.linuxHosts
          { admin_username := "azureuser",
            admin_password := "Passw0rd!",
            windowsHosts := [("DC01", "198.51.100.11"),
                             ("workstation-1", "198.51.100.12")],
            linuxHosts := [("kali-attacker", "198.51.100.13")] }).map Prod.fst :=
  inventory_windows_priority_disjoint witnessConfig rangeCloud rangeVMs _
    [ApiCall.listVMs "attack-range-rg",
     ApiCall.getNic "attack-range-rg" "nic-dc01",
     ApiCall.getPip "attack-range-rg" "pip-dc01",
     ApiCall.getNic "attack-range-rg" "nic-ws1",
     ApiCall.getPip "attack-range-rg" "pip-ws1",
     ApiCall.getNic "attack-range-rg" "nic-kali",
     ApiCall.getPip "attack-range-rg" "pip-kali",
     ApiCall.getNic "attack-range-rg" "nic-rnd",
     ApiCall.getPip "attack-range-rg" "pip-rnd"]
    (by decide) rfl rfl (by decide) (by decide)

/-- The exception a checked subprocess run can raise:
`subprocess.CalledProcessError` for a non-zero exit, or any other raised
exception. -/
inductive RunErr where
  | calledProcessError (code : Int)
  | other (msg : String)
deriving DecidableEq

/-- Outcome of invoking one external process: it exited with a code, or
the invocation itself raised. -/
inductive ProcResult where
  | exited (code : Int)
  | raised (msg : String)
deriving DecidableEq

/-- `subprocess.run([...], check=True)`: ok on exit code 0, otherwise a
`CalledProcessError`; a raised invocation propagates as-is. -/
def runChecked : ProcResult → Except RunErr Unit
  | .exited n => if n = 0 then .ok () else .error (.calledProcessError n)
  | .raised m => .error (.other m)

/-- Environment of one `build` call: the `update_ip_config` environment and
filesystem, the two terraform subprocess outcomes, and the configuration
and cloud consumed by inventory generation. -/
structure BuildEnv where
  ipEnv : IpEnv
  fs : FS
  initProc : ProcResult
  applyProc : ProcResult
  invConfig : Config
  cloud : Cloud

/-- Observable outcome of `build`: its boolean return value, whether
`create_ansible_inventory` was invoked, whether `run_defender_onboarding`
was invoked, and the terraform files after the allow-list sync. -/
structure BuildOutcome where
  ok : Bool
  inventoryInvoked : Bool
  onboardingInvoked : Bool
  fs : FS

/-- `build` (source lines 68–92): allow-list sync, `terraform init` and
`terraform apply` under `check=True` in one `try` block returning `False`
on any exception, then inventory generation, then — only when inventory
generation succeeded — Defender onboarding, returning `True` either way. -/
def build (env : BuildEnv) : BuildOutcome :=
  let fs1 := match update_ip_config env.ipEnv env.fs with
    | .ok (fs', _) => fs'
    | .error _ => env.fs
  match runChecked env.initProc with
  | .error _ =>
    { ok := false, inventoryInvoked := false, onboardingInvoked := false, fs := fs1 }
  | .ok _ =>
    match runChecked env.applyProc with
    | .error _ =>
      { ok := false, inventoryInvoked := false, onboardingInvoked := false, fs := fs1 }
    | .ok _ =>
      if (create_ansible_inventory env.invConfig env.cloud).1 then
        { ok := true, inventoryInvoked := true, onboardingInvoked := true, fs := fs1 }
      else
        { ok := true, inventoryInvoked := true, onboardingInvoked := false, fs := fs1 }

/-- C3: if the terraform init or apply step exits non-zero or raises,
`build` returns failure and invokes neither inventory generation nor
onboarding; if both steps succeed but inventory generation fails, `build`
still returns success and skips only the onboarding step. -/
theorem build_failure_semantics (env : BuildEnv) :
    (¬(runChecked env.initProc = .ok () ∧ runChecked env.applyProc = .ok ()) →
      (build env).ok = false
      ∧ (build env).inventoryInvoked = false
      ∧ (build env).onboardingInvoked = false)
    ∧ (runChecked env.initProc = .ok () → runChecked env.applyProc = .ok () →
        (create_ansible_inventory env.invConfig env.cloud).1 = false →
        (build env).ok = true
        ∧ (build env).inventoryInvoked = true
        ∧ (build env).onboardingInvoked = false) := by
  constructor
  · intro hfail
    cases h1 : runChecked env.initProc with
    | error e => simp [build, h1]
    | ok u =>
      cases u
      cases h2 : runChecked env.applyProc with
      | error e => simp [build, h1, h2]
      | ok u => cases u; exact absurd ⟨h1, h2⟩ hfail
  · intro h1 h2 hinv
    simp [build, h1, h2, hinv]

/-- Witness for C3: a failing apply step yields failure with no inventory
generation and no onboarding, and a failing inventory still yields overall
success without onboarding. -/
theorem build_failure_semantics_witness :
    ((build { ipEnv := ⟨.error "down", none, none⟩, fs := ⟨none, none⟩,
              initProc := .exited 0, applyProc := .exited 1,
              invConfig := witnessConfig, cloud := idleCloud }).ok = false
      ∧ (build { ipEnv := ⟨.error "down", none, none⟩, fs := ⟨none, none⟩,
                 initProc := .exited 0, applyProc := .exited 1,
                 invConfig := witnessConfig, cloud := idleCloud }).inventoryInvoked = false
      ∧ (build { ipEnv := ⟨.error "down", none, none⟩, fs := ⟨none, none⟩,
                 initProc := .exited 0, applyProc := .exited 1,
                 invConfig := witnessConfig, cloud := idleCloud }).onboardingInvoked = false)
    ∧ ((build { ipEnv := ⟨.error "down", none, none⟩, fs := ⟨none, none⟩,
                initProc := .exited 0, applyProc := .exited 0,
                invConfig := ⟨none, none, none, none⟩, cloud := idleCloud }).ok = true
      ∧ (build { ipEnv := ⟨.error "down", none, none⟩, fs := ⟨none, none⟩,
                 initProc := .exited 0, applyProc := .exited 0,
                 invConfig := ⟨none, none, none, none⟩,
                 cloud := idleCloud }).inventoryInvoked = true
      ∧ (build { ipEnv := ⟨.error "down", none, none⟩, fs := ⟨none, none⟩,
                 initProc := .exited 0, applyProc := .exited 0,
                 invConfig := ⟨none, none, none, none⟩,
                 cloud := idleCloud }).onboardingInvoked = false) :=
  ⟨(build_failure_semantics _).1 (by intro h; exact Except.noConfusion h.2),
   (build_failure_semantics _).2 rfl rfl rfl⟩
